import Mathlib

/-!
Shallow embedding of the LC3RS/simulator execution engine.

Machine words (u16 in the source) are modelled as `Nat` with explicit
`% 65536` at every point where the Rust code performs wrapping
arithmetic (`wrapping_add`) or where the `u16` type truncates a shift.
Fallible operations (a Rust `unwrap` that can panic, an overflowing
shift) are modelled with `Option`, `none` standing for a panic.
Console input is modelled as an infinite byte stream `stdin : Nat → Nat`
with a cursor `pos`; a blocking one-byte read yields `stdin pos % 256`
and advances the cursor (the source blocks until a byte is available,
so the model never fails on input).  Console output is modelled as a
list of abstract output events.
-/

namespace LC3

/-- Modelled from the spec: constants.rs is not in the packaged sources.
The spec fixes memory as "a fixed-size array of 65536 16-bit words". -/
def MAX_MEMORY : Nat := 65536

/-- Modelled from the spec: constants.rs is not in the packaged sources.
The repository's own register test asserts `reg.get(Register::PC) == 0x3000`
on the default register file, pinning the fixed start address. -/
def PC_START : Nat := 0x3000

/-- Register identifiers, from src/enums.rs (`pub enum Register`). -/
inductive Register where
  | R0 | R1 | R2 | R3 | R4 | R5 | R6 | R7 | PC | COND | COUNT
deriving DecidableEq

/-- The discriminant of a register, as produced by the `ToPrimitive`
derive on src/enums.rs `Register` (variants numbered from 0). -/
def Register.toIdx : Register → Nat
  | .R0 => 0 | .R1 => 1 | .R2 => 2 | .R3 => 3 | .R4 => 4
  | .R5 => 5 | .R6 => 6 | .R7 => 7 | .PC => 8 | .COND => 9 | .COUNT => 10

/-- `Register::from_u16`, as produced by the `FromPrimitive` derive:
`some` exactly on the discriminants 0..10. -/
def Register.from_u16 : Nat → Option Register
  | 0 => some .R0 | 1 => some .R1 | 2 => some .R2 | 3 => some .R3
  | 4 => some .R4 | 5 => some .R5 | 6 => some .R6 | 7 => some .R7
  | 8 => some .PC | 9 => some .COND | 10 => some .COUNT
  | _ => none

/-- Raw opcode values, from src/enums.rs (`pub enum RawOpCode`, values
0..14 in declaration order).  The packaged enums.rs lacks the `Rti`
variant that the match in `Machine::decode_and_execute` (src/vm.rs)
names; modelled from the spec, which describes opcode value 15 as the
"notional return-from-interrupt opcode value 15 region, unused/reserved",
`Rti` is reconstructed as the value-15 variant. -/
inductive RawOpCode where
  | Br | Add | Ld | St | Jsr | And | Ldr | Str | Not | Ldi | Sti
  | Jmp | Noop | Lea | Trap | Rti
deriving DecidableEq

/-- `RawOpCode::from_u16` from the `FromPrimitive` derive: `some` exactly
on the discriminants 0..15. -/
def RawOpCode.from_u16 : Nat → Option RawOpCode
  | 0 => some .Br | 1 => some .Add | 2 => some .Ld | 3 => some .St
  | 4 => some .Jsr | 5 => some .And | 6 => some .Ldr | 7 => some .Str
  | 8 => some .Not | 9 => some .Ldi | 10 => some .Sti | 11 => some .Jmp
  | 12 => some .Noop | 13 => some .Lea | 14 => some .Trap | 15 => some .Rti
  | _ => none

/-- Condition flags, from src/enums.rs (`pub enum CondFlag`):
Pos = 1, Zero = 2, Neg = 4. -/
inductive CondFlag where
  | Pos | Zero | Neg
deriving DecidableEq

/-- The numeric value of a condition flag (`ToPrimitive` on the
explicit discriminants `1 << 0`, `1 << 1`, `1 << 2`). -/
def CondFlag.toU16 : CondFlag → Nat
  | .Pos => 1
  | .Zero => 2
  | .Neg => 4

/-- `CondFlag::from_reg_value` from src/enums.rs: 0 maps to Zero, a set
high bit (val >> 15 ≠ 0) to Neg, anything else to Pos. -/
def CondFlag.from_reg_value (val : Nat) : CondFlag :=
  if val = 0 then .Zero
  else if val >>> 15 ≠ 0 then .Neg
  else .Pos

/-- `sign_extend` from src/utils.rs.  The two shifts are on `u16`
values, so a shift amount of 16 or more is an arithmetic-overflow
panic, modelled as `none`; the `u16` left shift otherwise discards the
bits shifted past position 15, modelled by `% 65536`. -/
def sign_extend (x bit_count : Nat) : Option Nat :=
  -- Early return if bit_count is 0
  if bit_count = 0 then some x
  -- x >> (bit_count - 1): u16 shift, panics when the amount is ≥ 16
  else if 16 ≤ bit_count - 1 then none
  else if (x >>> (bit_count - 1)) &&& 1 ≠ 0 then
    -- 0xFFFF << bit_count: u16 shift, panics when the amount is ≥ 16
    if 16 ≤ bit_count then none
    else some (x ||| ((0xFFFF <<< bit_count) % 65536))
  else some x

/-- Trap codes.  Modelled from the spec: the `TrapCode` enum imported by
src/vm.rs is not in the packaged sources; the spec's trap dispatch table
defines exactly GETC = 0x20, OUT = 0x21, PUTS = 0x22, IN = 0x23,
PUTSP = 0x24, HALT = 0x25. -/
inductive TrapCode where
  | GetC | Out | Puts | In | PutsP | Halt
deriving DecidableEq

/-- `TrapCode::from_u16`: `some` exactly on the six defined vectors. -/
def TrapCode.from_u16 : Nat → Option TrapCode
  | 0x20 => some .GetC
  | 0x21 => some .Out
  | 0x22 => some .Puts
  | 0x23 => some .In
  | 0x24 => some .PutsP
  | 0x25 => some .Halt
  | _ => none

/-- Modelled from the spec: the `MemMappedReg` enum imported by
src/memory.rs is not in the packaged sources.  The spec names a
keyboard-status and keyboard-data register; the concrete addresses
follow the standard LC-3 memory map (the spec gives no values). -/
def Kbsr : Nat := 0xFE00

/-- Modelled from the spec: keyboard-data register address (see `Kbsr`). -/
def Kbdr : Nat := 0xFE02

/-- `RegisterManager` from src/memory.rs: an array of 11 u16 values,
modelled as a function from the register index. -/
structure RegisterManager where
  registers : Nat → Nat

/-- `RegisterManager::default`: all registers zero except PC = PC_START. -/
def RegisterManager.default : RegisterManager :=
  ⟨fun i => if i = 8 then PC_START else 0⟩

/-- `RegisterManager::get`. -/
def RegisterManager.get (rm : RegisterManager) (reg : Register) : Nat :=
  rm.registers reg.toIdx

/-- `RegisterManager::set`. -/
def RegisterManager.set (rm : RegisterManager) (reg : Register) (val : Nat) :
    RegisterManager :=
  ⟨fun i => if i = reg.toIdx then val else rm.registers i⟩

/-- `RegisterManager::incr` (wrapping add of 1). -/
def RegisterManager.incr (rm : RegisterManager) (reg : Register) :
    RegisterManager :=
  rm.set reg ((rm.get reg + 1) % 65536)

/-- `RegisterManager::incr_by` (wrapping add). -/
def RegisterManager.incr_by (rm : RegisterManager) (reg : Register) (val : Nat) :
    RegisterManager :=
  rm.set reg ((rm.get reg + val) % 65536)

/-- `RegisterManager::copy`. -/
def RegisterManager.copy (rm : RegisterManager) (sink src : Register) :
    RegisterManager :=
  rm.set sink (rm.get src)

/-- `MemoryManager` from src/memory.rs: 65536 u16 cells, modelled as a
function from the address. -/
structure MemoryManager where
  memory : Nat → Nat

/-- `MemoryManager::default`: all cells zero. -/
def MemoryManager.default : MemoryManager := ⟨fun _ => 0⟩

/-- `MemoryManager::write`: plain store. -/
def MemoryManager.write (m : MemoryManager) (addr val : Nat) : MemoryManager :=
  ⟨fun x => if x = addr then val else m.memory x⟩

/-- `MemoryManager::read` from src/memory.rs.  A read of the
keyboard-status address first blocks for one input byte: a nonzero byte
stores 1 <<< 15 into the status register and the byte into the data
register, a zero byte stores 0 into the status register; the value
then returned is the (freshly updated) cell at `addr`.  The byte comes
from the modelled stdin stream, so the result carries the updated
memory and cursor alongside the value. -/
def MemoryManager.read (m : MemoryManager) (stdin : Nat → Nat) (pos addr : Nat) :
    Nat × MemoryManager × Nat :=
  if addr = Kbsr then
    let b := stdin pos % 256
    let m' := if b ≠ 0 then (m.write Kbsr (1 <<< 15)).write Kbdr b
              else m.write Kbsr 0
    (m'.memory addr, m', pos + 1)
  else
    (m.memory addr, m, pos)

/-- Abstract console output events.  The source prints bytes and a few
fixed strings; the model records what kind of output happened. -/
inductive OutEvent where
  /-- a single character printed (OUT, PUTS, PUTSP) -/
  | ch (c : Nat)
  /-- the "Enter a character : " prompt of the IN trap -/
  | inPrompt
  /-- the "Machine Halted" notice of the HALT trap -/
  | haltNotice
  /-- the unknown-trap diagnostic, carrying the raw instruction printed -/
  | unknownTrap (raw : Nat)
deriving DecidableEq

/-- `Machine` from src/vm.rs.  `debug_mode` only gates extra printing,
so it is not modelled; the stdin stream/cursor and the output list model
the process console that the source reaches through `io::stdin` and
`print!`. -/
structure Machine where
  reg : RegisterManager
  mem : MemoryManager
  is_running : Bool
  stdin : Nat → Nat
  pos : Nat
  out : List OutEvent

/-- `Machine::default` (all-zero registers apart from PC, zero memory,
not running), over a given stdin stream. -/
def Machine.default (stdin : Nat → Nat) : Machine :=
  ⟨RegisterManager.default, MemoryManager.default, false, stdin, 0, []⟩

/-- `Machine::update_flags` from src/vm.rs: classify the register's
current value and overwrite COND with the resulting flag. -/
def Machine.update_flags (m : Machine) (register : Register) : Machine :=
  { m with reg := m.reg.set .COND (CondFlag.from_reg_value (m.reg.get register)).toU16 }

/-- ADD arm of `Machine::decode_and_execute` (src/vm.rs). -/
def Machine.execAdd (m : Machine) (raw_instr : Nat) : Option Machine :=
  match Register.from_u16 ((raw_instr >>> 9) &&& 0x7) with
  | none => none
  | some dest =>
  match Register.from_u16 ((raw_instr >>> 6) &&& 0x7) with
  | none => none
  | some src1 =>
  -- Check if we are in immediate mode
  let imm_flag := (raw_instr >>> 5) &&& 0x1
  if imm_flag = 1 then
    match sign_extend (raw_instr &&& 0x1F) 5 with
    | none => none
    | some imm5 =>
      let m := { m with reg := m.reg.set dest ((m.reg.get src1 + imm5) % 65536) }
      some (m.update_flags dest)
  else
    match Register.from_u16 (raw_instr &&& 0x7) with
    | none => none
    | some src2 =>
      let m := { m with reg := m.reg.set dest ((m.reg.get src1 + m.reg.get src2) % 65536) }
      some (m.update_flags dest)

/-- AND arm of `Machine::decode_and_execute` (src/vm.rs). -/
def Machine.execAnd (m : Machine) (raw_instr : Nat) : Option Machine :=
  match Register.from_u16 ((raw_instr >>> 9) &&& 0x7) with
  | none => none
  | some dest =>
  match Register.from_u16 ((raw_instr >>> 6) &&& 0x7) with
  | none => none
  | some src1 =>
  -- Check if we are in immediate mode
  let imm_flag := (raw_instr >>> 5) &&& 0x1
  if imm_flag = 1 then
    match sign_extend (raw_instr &&& 0x1F) 5 with
    | none => none
    | some imm5 =>
      let m := { m with reg := m.reg.set dest (m.reg.get src1 &&& imm5) }
      some (m.update_flags dest)
  else
    match Register.from_u16 (raw_instr &&& 0x7) with
    | none => none
    | some src2 =>
      let m := { m with reg := m.reg.set dest (m.reg.get src1 &&& m.reg.get src2) }
      some (m.update_flags dest)

/-- NOT arm of `Machine::decode_and_execute` (src/vm.rs).  The `u16`
bitwise complement `!x` is `x ^^^ 0xFFFF`. -/
def Machine.execNot (m : Machine) (raw_instr : Nat) : Option Machine :=
  match Register.from_u16 ((raw_instr >>> 9) &&& 0x7) with
  | none => none
  | some dest =>
  match Register.from_u16 ((raw_instr >>> 6) &&& 0x7) with
  | none => none
  | some src =>
    let m := { m with reg := m.reg.set dest (m.reg.get src ^^^ 0xFFFF) }
    some (m.update_flags dest)

/-- BR arm of `Machine::decode_and_execute` (src/vm.rs). -/
def Machine.execBr (m : Machine) (raw_instr : Nat) : Option Machine :=
  let cond_flag := (raw_instr >>> 9) &&& 0x7
  match sign_extend (raw_instr &&& 0x1FF) 9 with
  | none => none
  | some pc_offset =>
    if cond_flag &&& m.reg.get .COND ≠ 0 then
      some { m with reg := m.reg.incr_by .PC pc_offset }
    else
      some m

/-- JMP arm of `Machine::decode_and_execute` (src/vm.rs). -/
def Machine.execJmp (m : Machine) (raw_instr : Nat) : Option Machine :=
  match Register.from_u16 ((raw_instr >>> 6) &&& 0x7) with
  | none => none
  | some base =>
    some { m with reg := m.reg.copy .PC base }

/-- JSR arm of `Machine::decode_and_execute` (src/vm.rs): R7 is set to
the current PC first; then JSR (mode bit 1) adds the sign-extended
offset11 to PC, JSRR (mode bit 0) copies the base register into PC. -/
def Machine.execJsr (m : Machine) (raw_instr : Nat) : Option Machine :=
  -- Check if instruction was JSR or JSRR
  let miku_bit := (raw_instr >>> 11) &&& 0x1
  let m := { m with reg := m.reg.copy .R7 .PC }
  if miku_bit = 1 then
    /- JSR -/
    match sign_extend (raw_instr &&& 0x7FF) 11 with
    | none => none
    | some pc_offset =>
      some { m with reg := m.reg.incr_by .PC pc_offset }
  else
    /- JSRR -/
    match Register.from_u16 ((raw_instr >>> 6) &&& 0x7) with
    | none => none
    | some base =>
      some { m with reg := m.reg.copy .PC base }

/-- LD arm of `Machine::decode_and_execute` (src/vm.rs). -/
def Machine.execLd (m : Machine) (raw_instr : Nat) : Option Machine :=
  match Register.from_u16 ((raw_instr >>> 9) &&& 0x7) with
  | none => none
  | some dest =>
  match sign_extend (raw_instr &&& 0x1FF) 9 with
  | none => none
  | some pc_offset =>
    let addr := (m.reg.get .PC + pc_offset) % 65536
    let r := m.mem.read m.stdin m.pos addr
    let m := { m with mem := r.2.1, pos := r.2.2, reg := m.reg.set dest r.1 }
    some (m.update_flags dest)

/-- LDR arm of `Machine::decode_and_execute` (src/vm.rs). -/
def Machine.execLdr (m : Machine) (raw_instr : Nat) : Option Machine :=
  match Register.from_u16 ((raw_instr >>> 9) &&& 0x7) with
  | none => none
  | some dest =>
  match Register.from_u16 ((raw_instr >>> 6) &&& 0x7) with
  | none => none
  | some base =>
  match sign_extend (raw_instr &&& 0x3F) 6 with
  | none => none
  | some offset =>
    let r := m.mem.read m.stdin m.pos ((m.reg.get base + offset) % 65536)
    let m := { m with mem := r.2.1, pos := r.2.2, reg := m.reg.set dest r.1 }
    some (m.update_flags dest)

/-- LDI arm of `Machine::decode_and_execute` (src/vm.rs): indirect load,
two sequential memory reads. -/
def Machine.execLdi (m : Machine) (raw_instr : Nat) : Option Machine :=
  match Register.from_u16 ((raw_instr >>> 9) &&& 0x7) with
  | none => none
  | some dest =>
  match sign_extend (raw_instr &&& 0x1FF) 9 with
  | none => none
  | some pc_offset =>
    let addr := (m.reg.get .PC + pc_offset) % 65536
    let r1 := m.mem.read m.stdin m.pos addr
    let r2 := r1.2.1.read m.stdin r1.2.2 r1.1
    let m := { m with mem := r2.2.1, pos := r2.2.2, reg := m.reg.set dest r2.1 }
    some (m.update_flags dest)

/-- LEA arm of `Machine::decode_and_execute` (src/vm.rs). -/
def Machine.execLea (m : Machine) (raw_instr : Nat) : Option Machine :=
  match Register.from_u16 ((raw_instr >>> 9) &&& 0x7) with
  | none => none
  | some dest =>
  match sign_extend (raw_instr &&& 0x1FF) 9 with
  | none => none
  | some pc_offset =>
    let eff_addr := (m.reg.get .PC + pc_offset) % 65536
    let m := { m with reg := m.reg.set dest eff_addr }
    some (m.update_flags dest)

/-- ST arm of `Machine::decode_and_execute` (src/vm.rs). -/
def Machine.execSt (m : Machine) (raw_instr : Nat) : Option Machine :=
  match Register.from_u16 ((raw_instr >>> 9) &&& 0x7) with
  | none => none
  | some src =>
  match sign_extend (raw_instr &&& 0x1FF) 9 with
  | none => none
  | some pc_offset =>
    let addr := (m.reg.get .PC + pc_offset) % 65536
    some { m with mem := m.mem.write addr (m.reg.get src) }

/-- STI arm of `Machine::decode_and_execute` (src/vm.rs). -/
def Machine.execSti (m : Machine) (raw_instr : Nat) : Option Machine :=
  match Register.from_u16 ((raw_instr >>> 9) &&& 0x7) with
  | none => none
  | some src =>
  match sign_extend (raw_instr &&& 0x1FF) 9 with
  | none => none
  | some pc_offset =>
    let miku_addr := (m.reg.get .PC + pc_offset) % 65536
    let r := m.mem.read m.stdin m.pos miku_addr
    some { m with mem := r.2.1.write r.1 (m.reg.get src), pos := r.2.2 }

/-- STR arm of `Machine::decode_and_execute` (src/vm.rs). -/
def Machine.execStr (m : Machine) (raw_instr : Nat) : Option Machine :=
  match Register.from_u16 ((raw_instr >>> 9) &&& 0x7) with
  | none => none
  | some src =>
  match Register.from_u16 ((raw_instr >>> 6) &&& 0x7) with
  | none => none
  | some base =>
  match sign_extend (raw_instr &&& 0x3F) 6 with
  | none => none
  | some offset =>
    let addr := (m.reg.get base + offset) % 65536
    some { m with mem := m.mem.write addr (m.reg.get src) }

/-- The PUTS loop of the Trap arm (src/vm.rs): while the word at the
address is nonzero, print its low byte and advance.  The source
evaluates `self.mem.read(miku_addr)` once in the loop condition and
once more in the body, so each iteration performs two reads (each of
which can carry the keyboard side effect).  The Rust loop can run
forever; the model bounds it by an explicit fuel and returns the state
reached when fuel runs out (no claim depends on that case). -/
def putsLoop (fuel : Nat) (mem : MemoryManager) (stdin : Nat → Nat)
    (pos addr : Nat) (acc : List OutEvent) :
    MemoryManager × Nat × List OutEvent :=
  match fuel with
  | 0 => (mem, pos, acc)
  | fuel + 1 =>
    let c := mem.read stdin pos addr
    if c.1 ≠ 0 then
      let b := c.2.1.read stdin c.2.2 addr
      putsLoop fuel b.2.1 stdin b.2.2 ((addr + 1) % 65536)
        (acc ++ [.ch (b.1 % 256)])
    else
      (c.2.1, c.2.2, acc)

/-- The PUTSP loop of the Trap arm (src/vm.rs): like `putsLoop` but two
packed characters per word, the zero high byte suppressed.  Same
two-reads-per-iteration and fuel treatment as `putsLoop`. -/
def putsPLoop (fuel : Nat) (mem : MemoryManager) (stdin : Nat → Nat)
    (pos addr : Nat) (acc : List OutEvent) :
    MemoryManager × Nat × List OutEvent :=
  match fuel with
  | 0 => (mem, pos, acc)
  | fuel + 1 =>
    let c := mem.read stdin pos addr
    if c.1 ≠ 0 then
      let b := c.2.1.read stdin c.2.2 addr
      let c1 := b.1 &&& 0xFF
      let c2 := b.1 >>> 8
      putsPLoop fuel b.2.1 stdin b.2.2 ((addr + 1) % 65536)
        (if c2 ≠ 0 then acc ++ [.ch c1, .ch c2] else acc ++ [.ch c1])
    else
      (c.2.1, c.2.2, acc)

/-- TRAP arm of `Machine::decode_and_execute` (src/vm.rs): dispatch on
the low byte; an undefined vector only prints a diagnostic. -/
def Machine.execTrap (m : Machine) (raw_instr : Nat) : Option Machine :=
  match TrapCode.from_u16 (raw_instr &&& 0xFF) with
  | some trap_code =>
    match trap_code with
    | .GetC =>
      -- block for one byte, store it in R0
      let b := m.stdin m.pos % 256
      some { m with reg := m.reg.set .R0 b, pos := m.pos + 1 }
    | .Out =>
      -- print the low byte of R0
      some { m with out := m.out ++ [.ch (m.reg.get .R0 % 256)] }
    | .Puts =>
      let r := putsLoop MAX_MEMORY m.mem m.stdin m.pos (m.reg.get .R0) []
      some { m with mem := r.1, pos := r.2.1, out := m.out ++ r.2.2 }
    | .In =>
      -- prompt, then block for one byte, store it in R0
      let b := m.stdin m.pos % 256
      some { m with reg := m.reg.set .R0 b, pos := m.pos + 1,
                    out := m.out ++ [.inPrompt] }
    | .PutsP =>
      let r := putsPLoop MAX_MEMORY m.mem m.stdin m.pos (m.reg.get .R0) []
      some { m with mem := r.1, pos := r.2.1, out := m.out ++ r.2.2 }
    | .Halt =>
      some { m with out := m.out ++ [.haltNotice], is_running := false }
  | none =>
    -- "Something fucked" + the raw instruction: diagnostic only
    some { m with out := m.out ++ [.unknownTrap raw_instr] }

/-- `Machine::decode_and_execute` from src/vm.rs: an all-zero word is a
no-op before any dispatch; otherwise bits 15-12 are decoded with an
`unwrap` (`none` models the panic on an undecodable value) and the
matching arm runs. -/
def Machine.decode_and_execute (m : Machine) (raw_instr : Nat) : Option Machine :=
  if raw_instr = 0 then some m
  else
    match RawOpCode.from_u16 (raw_instr >>> 12) with
    | none => none
    | some raw_op =>
      match raw_op with
      | .Add => m.execAdd raw_instr
      | .And => m.execAnd raw_instr
      | .Not => m.execNot raw_instr
      | .Br => m.execBr raw_instr
      | .Jmp => m.execJmp raw_instr
      | .Jsr => m.execJsr raw_instr
      | .Ld => m.execLd raw_instr
      | .Ldr => m.execLdr raw_instr
      | .Ldi => m.execLdi raw_instr
      | .Lea => m.execLea raw_instr
      | .St => m.execSt raw_instr
      | .Sti => m.execSti raw_instr
      | .Str => m.execStr raw_instr
      | .Trap => m.execTrap raw_instr
      | .Rti => some m
      | .Noop => some m

/-- `Machine::fetch` from src/vm.rs: read the word at PC (a real
`MemoryManager::read`, including the keyboard interception), then
increment PC. -/
def Machine.fetch (m : Machine) : Nat × Machine :=
  let r := m.mem.read m.stdin m.pos (m.reg.get .PC)
  (r.1, { m with mem := r.2.1, pos := r.2.2, reg := m.reg.incr .PC })

/-- The `while` guard of `Machine::run` (src/vm.rs):
`self.is_running && (self.reg.get(Register::PC) as usize) < MAX_MEMORY`. -/
def Machine.loopGuard (m : Machine) : Bool :=
  m.is_running && decide (m.reg.get .PC < MAX_MEMORY)

/-- The `while` loop of `Machine::run` (src/vm.rs), bounded by fuel
(the model's stand-in for a possibly endless loop): while the guard
holds, fetch and decode-and-execute; `none` propagates a panic. -/
def Machine.runLoop : Nat → Machine → Option Machine
  | 0, m => some m
  | fuel + 1, m =>
    if m.loopGuard then
      let f := m.fetch
      match f.2.decode_and_execute f.1 with
      | none => none
      | some m' => Machine.runLoop fuel m'
    else
      some m

/-- `Machine::run` from src/vm.rs: set `is_running` and enter the loop. -/
def Machine.run (fuel : Nat) (m : Machine) : Option Machine :=
  Machine.runLoop fuel { m with is_running := true }

/-- The word-writing loop of `Machine::load_image` (src/vm.rs): read
big-endian 16-bit words from the remaining byte stream until fewer than
two bytes remain (clean end-of-stream), writing each word and advancing
the address with a wrapping add. -/
def loadLoop (mem : MemoryManager) (addr : Nat) : List Nat → MemoryManager
  | b1 :: b2 :: rest =>
    loadLoop (mem.write addr ((b1 % 256) * 256 + b2 % 256)) ((addr + 1) % 65536) rest
  | _ => mem

/-- `Machine::load_image` from src/vm.rs, on an already-opened byte
stream: the first big-endian word is the origin (fewer than two bytes
is the fatal header error, `none`); the remaining words are written
sequentially from the origin. -/
def Machine.load_image (m : Machine) (bytes : List Nat) : Option Machine :=
  match bytes with
  | b1 :: b2 :: rest =>
    some { m with mem := loadLoop m.mem ((b1 % 256) * 256 + b2 % 256) rest }
  | _ => none

/-- Big-endian byte encoding of a 16-bit word, used to build the image
byte streams the loader consumes. -/
def toBE (w : Nat) : List Nat := [w / 256 % 256, w % 256]

/-! ### Helper lemmas -/

/-- The sign test of `sign_extend` is exactly a test of bit
`n` of `x`. -/
lemma sign_guard (x n : Nat) : ((x >>> n) &&& 1 ≠ 0) ↔ x.testBit n = true := by
  have h1 : (x >>> n).testBit 0 = x.testBit n := by
    rw [Nat.testBit_shiftRight, Nat.add_zero]
  rw [← h1, Nat.testBit_zero, Nat.and_one_is_mod, decide_eq_true_iff]
  omega

/-- Variant of `sign_guard` in the `% 2` normal form that `simp`
produces for the same condition. -/
lemma sign_guard_mod (x n : Nat) : ((x >>> n) % 2 = 1) ↔ x.testBit n = true := by
  rw [← sign_guard, Nat.and_one_is_mod]
  omega

/-- `sign_extend` always returns a value when the bit count is at most
15 (both shift amounts stay below the u16 width). -/
lemma sign_extend_total (x bc : Nat) (h : bc ≤ 15) : ∃ v, sign_extend x bc = some v := by
  by_cases h0 : bc = 0
  · exact ⟨x, by simp [sign_extend, h0]⟩
  · have hsh : ¬ 16 ≤ bc - 1 := by omega
    have h16 : ¬ 16 ≤ bc := by omega
    by_cases hg : (x >>> (bc - 1)) % 2 = 1
    · exact ⟨x ||| ((0xFFFF <<< bc) % 65536), by simp [sign_extend, h0, hsh, hg, h16]⟩
    · exact ⟨x, by simp [sign_extend, h0, hsh, hg]⟩

/-- Decoding a 3-bit register field never fails: `Register::from_u16`
is `some` on every value of `n &&& 7`, and the register it yields has
that discriminant. -/
lemma Register.from_u16_and7 (n : Nat) :
    ∃ r, Register.from_u16 (n &&& 7) = some r ∧ r.toIdx = n &&& 7 := by
  have h : n &&& 7 < 8 := Nat.lt_succ_of_le Nat.and_le_right
  set k := n &&& 7 with hk
  clear_value k
  interval_cases k <;> exact ⟨_, rfl, rfl⟩

/-- A 3-bit register field denotes one of R0..R7 (discriminant at
most 7). -/
lemma Register.and7_le (n : Nat) : n &&& 7 ≤ 7 := Nat.and_le_right

/-- Reading a register after a register store: the stored value at the
same index, the old value elsewhere. -/
lemma RegisterManager.get_set (rm : RegisterManager) (r r' : Register) (v : Nat) :
    (rm.set r v).get r' = if r'.toIdx = r.toIdx then v else rm.get r' := by
  simp [RegisterManager.get, RegisterManager.set]

/-! ### Claims about sign_extend (C5, C10) -/

/-- C5, counterexample: the claim that for every 16-bit `x` and every
`bit_count` in 1..16 the bits of `sign_extend x bit_count` above
position `bit_count - 1` all equal bit `bit_count - 1` of `x` is false:
at `x = 2`, `bit_count = 1` the function returns `x` unchanged, whose
bit 1 is set while bit 0 (the sign bit) is clear. -/
theorem sign_extend_claim_false :
    ¬ (∀ x bit_count : Nat, x < 65536 → 1 ≤ bit_count → bit_count ≤ 15 →
        ∀ v, sign_extend x bit_count = some v →
          ∀ j, bit_count ≤ j → j ≤ 15 → v.testBit j = x.testBit (bit_count - 1)) := by
  intro h
  have := h 2 1 (by decide) (by decide) (by decide) 2 (by decide) 1 (by decide) (by decide)
  exact absurd this (by decide)

/-- C5 (amended): for every `bit_count` in 1..16 and every `x` whose
bits at positions at and above `bit_count` are zero (`x < 2 ^ bit_count`),
`sign_extend x bit_count` returns a value whose low `bit_count` bits
equal those of `x` and whose bits from `bit_count` up to 15 all equal
bit `bit_count - 1` of `x`; and `sign_extend x 0` returns `x`
unchanged. -/
theorem sign_extend_sound :
    (∀ x : Nat, sign_extend x 0 = some x) ∧
    ∀ x bit_count : Nat, 1 ≤ bit_count → bit_count ≤ 15 → x < 2 ^ bit_count →
      ∃ v, sign_extend x bit_count = some v ∧
        (∀ j, j < bit_count → v.testBit j = x.testBit j) ∧
        (∀ j, bit_count ≤ j → j ≤ 15 → v.testBit j = x.testBit (bit_count - 1)) := by
  constructor
  · intro x
    simp [sign_extend]
  · intro x bc h1 h15 hx
    have hbc0 : bc ≠ 0 := by omega
    have hsh : ¬ 16 ≤ bc - 1 := by omega
    have h16 : ¬ 16 ≤ bc := by omega
    by_cases hs : x.testBit (bc - 1) = true
    · have hg : (x >>> (bc - 1)) % 2 = 1 := (sign_guard_mod x (bc - 1)).mpr hs
      refine ⟨x ||| ((0xFFFF <<< bc) % 65536), ?_, ?_, ?_⟩
      · simp [sign_extend, hbc0, hsh, hg, h16]
      · intro j hj
        rw [Nat.testBit_or]
        have hm : ((0xFFFF <<< bc) % 65536).testBit j = false := by
          rw [show (65536 : Nat) = 2 ^ 16 by norm_num, Nat.testBit_mod_two_pow,
            Nat.testBit_shiftLeft]
          simp [show ¬ j ≥ bc by omega]
        rw [hm, Bool.or_false]
      · intro j hj1 hj2
        rw [Nat.testBit_or]
        have hm : ((0xFFFF <<< bc) % 65536).testBit j = true := by
          rw [show (65536 : Nat) = 2 ^ 16 by norm_num, Nat.testBit_mod_two_pow,
            Nat.testBit_shiftLeft,
            show (0xFFFF : Nat) = 2 ^ 16 - 1 by norm_num,
            Nat.testBit_two_pow_sub_one]
          have t1 : j < 16 := by omega
          have t2 : j ≥ bc := hj1
          have t3 : j - bc < 16 := by omega
          simp [t1, t2, t3]
        rw [hm, hs, Bool.or_true]
    · have hg : ¬ (x >>> (bc - 1)) % 2 = 1 := by
        rw [sign_guard_mod]
        simpa using hs
      refine ⟨x, ?_, ?_, ?_⟩
      · simp [sign_extend, hbc0, hsh, hg]
      · intro j _
        rfl
      · intro j hj1 _
        have hfj : x.testBit j = false :=
          Nat.testBit_lt_two_pow
            (lt_of_lt_of_le hx (Nat.pow_le_pow_right (by norm_num) hj1))
        rw [hfj, Bool.not_eq_true] at *
        rw [hs]

/-- C5, witness: the amended theorem applied at `x = 13`,
`bit_count = 4` (the repository's own negative-case test vector). -/
theorem sign_extend_sound_witness :
    (1 ≤ 4 ∧ 4 ≤ 15 ∧ 13 < 2 ^ 4) ∧
    (∃ v, sign_extend 13 4 = some v ∧
      (∀ j, j < 4 → v.testBit j = Nat.testBit 13 j) ∧
      (∀ j, 4 ≤ j → j ≤ 15 → v.testBit j = Nat.testBit 13 3)) :=
  ⟨by decide, sign_extend_sound.2 13 4 (by decide) (by decide) (by decide)⟩

/-- C10: `sign_extend` is total only for `bit_count` at most 15.  For
`bit_count = 16` or greater and any `x` whose bit at position
`bit_count - 1` is set, the function panics on a shift of a 16-bit
value by at least its full width (modelled as `none`); for
`bit_count ≤ 15` it always returns a value. -/
theorem sign_extend_overflow_panics :
    (∀ x bit_count : Nat, 16 ≤ bit_count → x.testBit (bit_count - 1) = true →
      sign_extend x bit_count = none) ∧
    (∀ x bit_count : Nat, bit_count ≤ 15 → (sign_extend x bit_count).isSome = true) := by
  constructor
  · intro x bc h16 hbit
    have hbc0 : bc ≠ 0 := by omega
    by_cases h17 : 16 ≤ bc - 1
    · simp [sign_extend, hbc0, h17]
    · have hbc : bc = 16 := by omega
      subst hbc
      have hg : (x >>> 15) % 2 = 1 := (sign_guard_mod x 15).mpr (by simpa using hbit)
      simp [sign_extend, hg]
  · intro x bc hle
    by_cases h0 : bc = 0
    · simp [sign_extend, h0]
    · have hsh : ¬ 16 ≤ bc - 1 := by omega
      have h16 : ¬ 16 ≤ bc := by omega
      by_cases hg : (x >>> (bc - 1)) % 2 = 1
      · simp [sign_extend, h0, hsh, hg, h16]
      · simp [sign_extend, h0, hsh, hg]

/-- C10, witness: `sign_extend 0x8000 16` panics (bit 15 set), while
`sign_extend 13 5` returns a value. -/
theorem sign_extend_overflow_panics_witness :
    (16 ≤ 16 ∧ Nat.testBit 0x8000 15 = true ∧ sign_extend 0x8000 16 = none) ∧
    (5 ≤ 15 ∧ (sign_extend 13 5).isSome = true) :=
  ⟨⟨by decide, by decide, sign_extend_overflow_panics.1 0x8000 16 (by decide) (by decide)⟩,
   ⟨by decide, sign_extend_overflow_panics.2 13 5 (by decide)⟩⟩

/-! ### Claim C2: JSR / JSRR -/

/-- C2: executing an instruction whose opcode decodes to JSR stores the
pre-jump PC into R7 and then, with mode bit (bit 11) set, adds the
sign-extended 11-bit offset to PC (JSR); with mode bit clear it sets PC
to the base register's value — for every base register, including
base = R7, where the base register's value is read after R7 was
overwritten, so PC becomes the saved pre-jump PC. -/
theorem jsr_semantics (m : Machine) (i : Nat)
    (hop : RawOpCode.from_u16 (i >>> 12) = some RawOpCode.Jsr) :
    ∃ m', m.decode_and_execute i = some m' ∧
      m'.reg.get .R7 = m.reg.get .PC ∧
      ((i >>> 11) &&& 1 = 1 →
        ∀ off, sign_extend (i &&& 0x7FF) 11 = some off →
          m'.reg.get .PC = (m.reg.get .PC + off) % 65536) ∧
      ((i >>> 11) &&& 1 ≠ 1 →
        ∀ base, Register.from_u16 ((i >>> 6) &&& 0x7) = some base →
          m'.reg.get .PC = m'.reg.get base ∧
          (base = Register.R7 → m'.reg.get .PC = m.reg.get .PC)) := by
  have hi0 : i ≠ 0 := by
    intro h
    rw [h] at hop
    simp [RawOpCode.from_u16] at hop
  by_cases hbit : (i >>> 11) &&& 1 = 1
  · obtain ⟨off, hoff⟩ := sign_extend_total (i &&& 0x7FF) 11 (by omega)
    have hstep : m.decode_and_execute i =
        some { m with reg := (m.reg.copy .R7 .PC).incr_by .PC off } := by
      simp [Machine.decode_and_execute, hi0, hop, Machine.execJsr, hbit, hoff]
    refine ⟨_, hstep, ?_, ?_, ?_⟩
    · simp [RegisterManager.incr_by, RegisterManager.copy, RegisterManager.get,
        RegisterManager.set, Register.toIdx]
    · intro _ off' hoff'
      rw [hoff] at hoff'
      injection hoff' with h
      subst h
      simp [RegisterManager.incr_by, RegisterManager.copy, RegisterManager.get,
        RegisterManager.set, Register.toIdx]
    · intro hbit'
      exact absurd hbit hbit'
  · obtain ⟨base, hbase, hbidx⟩ := Register.from_u16_and7 (i >>> 6)
    have hb8 : base.toIdx ≠ 8 := by
      have := Register.and7_le (i >>> 6)
      omega
    have hbitm : ¬ i >>> 11 % 2 = 1 := by
      rw [← Nat.and_one_is_mod]
      exact hbit
    have hstep : m.decode_and_execute i =
        some { m with reg := (m.reg.copy .R7 .PC).copy .PC base } := by
      simp [Machine.decode_and_execute, hi0, hop, Machine.execJsr, hbitm, hbase]
    refine ⟨_, hstep, ?_, ?_, ?_⟩
    · simp [RegisterManager.copy, RegisterManager.get,
        RegisterManager.set, Register.toIdx]
    · intro hbit'
      exact absurd hbit' hbit
    · intro _ base' hbase'
      rw [hbase] at hbase'
      injection hbase' with h
      subst h
      constructor
      · simp [RegisterManager.copy, RegisterManager.get,
          RegisterManager.set, Register.toIdx, hb8]
      · intro hb7
        subst hb7
        simp [RegisterManager.copy, RegisterManager.get,
          RegisterManager.set, Register.toIdx]

/-- C2, witness: the theorem applied to the repository's own JSR and
JSRR test vectors (instruction 0x4A56 is JSR with offset 0x256 and
0x4140 is JSRR with base R5) on the default machine. -/
theorem jsr_semantics_witness :
    (RawOpCode.from_u16 (0x4A56 >>> 12) = some RawOpCode.Jsr) ∧
    ∃ m', (Machine.default fun _ => 0).decode_and_execute 0x4A56 = some m' ∧
      m'.reg.get .R7 = (Machine.default fun _ => 0).reg.get .PC ∧
      ((0x4A56 >>> 11) &&& 1 = 1 →
        ∀ off, sign_extend (0x4A56 &&& 0x7FF) 11 = some off →
          m'.reg.get .PC = ((Machine.default fun _ => 0).reg.get .PC + off) % 65536) ∧
      ((0x4A56 >>> 11) &&& 1 ≠ 1 →
        ∀ base, Register.from_u16 ((0x4A56 >>> 6) &&& 0x7) = some base →
          m'.reg.get .PC = m'.reg.get base ∧
          (base = Register.R7 → m'.reg.get .PC = (Machine.default fun _ => 0).reg.get .PC)) :=
  ⟨by decide, jsr_semantics (Machine.default fun _ => 0) 0x4A56 (by decide)⟩

/-! ### Claim C3: the keyboard-status read -/

/-- C3, counterexample: the claim that a read of the keyboard-status
address updates both mapped registers for every polled input byte is
false: when the polled byte is 0 the code only stores 0 into the status
register and never writes the data register.  With the data register
initially 7 and a polled byte of 0, the data register still holds 7
after the read. -/
theorem kbsr_read_claim_false :
    ¬ (∀ (mem : MemoryManager) (stdin : Nat → Nat) (pos : Nat),
        ((mem.read stdin pos Kbsr).2.1).memory Kbdr = stdin pos % 256) := by
  intro h
  have := h ⟨fun a => if a = Kbdr then 7 else 0⟩ (fun _ => 0) 0
  exact absurd this (by decide)

/-- C3 (amended): a read of the keyboard-status address performs the
blocking one-byte poll (consuming exactly one input byte) and updates
the keyboard-status register before returning the freshly stored status
value; the keyboard-data register is updated only when the polled byte
is nonzero (status 0x8000, data the byte), while a zero byte stores 0
into the status register and leaves the data register unchanged. -/
theorem kbsr_read_semantics (mem : MemoryManager) (stdin : Nat → Nat) (pos : Nat) :
    (mem.read stdin pos Kbsr).2.2 = pos + 1 ∧
    (mem.read stdin pos Kbsr).1 = ((mem.read stdin pos Kbsr).2.1).memory Kbsr ∧
    (stdin pos % 256 ≠ 0 →
      ((mem.read stdin pos Kbsr).2.1).memory Kbsr = 0x8000 ∧
      ((mem.read stdin pos Kbsr).2.1).memory Kbdr = stdin pos % 256 ∧
      (mem.read stdin pos Kbsr).1 = 0x8000 ∧
      ∀ a, a ≠ Kbsr → a ≠ Kbdr →
        ((mem.read stdin pos Kbsr).2.1).memory a = mem.memory a) ∧
    (stdin pos % 256 = 0 →
      ((mem.read stdin pos Kbsr).2.1).memory Kbsr = 0 ∧
      ((mem.read stdin pos Kbsr).2.1).memory Kbdr = mem.memory Kbdr ∧
      (mem.read stdin pos Kbsr).1 = 0 ∧
      ∀ a, a ≠ Kbsr →
        ((mem.read stdin pos Kbsr).2.1).memory a = mem.memory a) := by
  by_cases hb : stdin pos % 256 = 0
  · refine ⟨?_, ?_, ?_, ?_⟩
    · simp [MemoryManager.read, hb]
    · simp [MemoryManager.read, MemoryManager.write, hb]
    · intro hcon
      exact absurd hb hcon
    · intro _
      refine ⟨?_, ?_, ?_, ?_⟩
      · simp [MemoryManager.read, MemoryManager.write, hb]
      · simp [MemoryManager.read, MemoryManager.write, Kbsr, Kbdr, hb]
      · simp [MemoryManager.read, MemoryManager.write, hb]
      · intro a ha
        simp [MemoryManager.read, MemoryManager.write, hb, ha]
  · refine ⟨?_, ?_, ?_, ?_⟩
    · simp [MemoryManager.read, hb]
    · simp [MemoryManager.read, MemoryManager.write, hb]
    · intro _
      refine ⟨?_, ?_, ?_, ?_⟩
      · simp [MemoryManager.read, MemoryManager.write, Kbsr, Kbdr, hb]
      · simp [MemoryManager.read, MemoryManager.write, Kbsr, Kbdr, hb]
      · simp [MemoryManager.read, MemoryManager.write, Kbsr, Kbdr, hb]
      · intro a ha1 ha2
        simp [MemoryManager.read, MemoryManager.write, hb, ha1, ha2]
    · intro hcon
      exact absurd hcon hb

/-- C3, witness: the amended theorem applied at the all-zero memory,
the constant stdin stream of byte 65 and cursor 0: the poll consumed
one byte and the data register now holds 65. -/
theorem kbsr_read_semantics_witness :
    (MemoryManager.default.read (fun _ => 65) 0 Kbsr).2.2 = 1 ∧
    ((MemoryManager.default.read (fun _ => 65) 0 Kbsr).2.1).memory Kbdr = 65 := by
  have h := kbsr_read_semantics MemoryManager.default (fun _ => 65) 0
  exact ⟨h.1, (h.2.2.1 (by decide)).2.1⟩

/-! ### Claims C4 and C8: trap dispatch -/

/-- A trap vector outside 0x20..0x25 does not decode. -/
lemma TrapCode.from_u16_eq_none (v : Nat) (h : ¬ (0x20 ≤ v ∧ v ≤ 0x25)) :
    TrapCode.from_u16 v = none := by
  unfold TrapCode.from_u16
  split <;> first
  | rfl
  | omega

/-- C4: executing a TRAP instruction whose low byte is not one of the
six defined vectors 0x20..0x25 leaves all registers, all memory, the
running flag and the input cursor unchanged; the engine keeps running
and only the unknown-trap diagnostic is appended to the output. -/
theorem unknown_trap_diag (m : Machine) (i : Nat)
    (hop : RawOpCode.from_u16 (i >>> 12) = some RawOpCode.Trap)
    (hvec : ¬ (0x20 ≤ i &&& 0xFF ∧ i &&& 0xFF ≤ 0x25)) :
    ∃ m', m.decode_and_execute i = some m' ∧
      m'.reg = m.reg ∧ m'.mem = m.mem ∧ m'.is_running = m.is_running ∧
      m'.pos = m.pos ∧ m'.out = m.out ++ [OutEvent.unknownTrap i] := by
  have hi0 : i ≠ 0 := by
    intro h
    rw [h] at hop
    simp [RawOpCode.from_u16] at hop
  have hnone := TrapCode.from_u16_eq_none (i &&& 0xFF) hvec
  have hstep : m.decode_and_execute i =
      some { m with out := m.out ++ [OutEvent.unknownTrap i] } := by
    simp [Machine.decode_and_execute, hi0, hop, Machine.execTrap, hnone]
  exact ⟨_, hstep, rfl, rfl, rfl, rfl, rfl⟩

/-- C4, witness: the theorem applied to instruction 0xE000 (TRAP with
vector 0x00) on the default machine. -/
theorem unknown_trap_diag_witness :
    (RawOpCode.from_u16 (0xE000 >>> 12) = some RawOpCode.Trap ∧
      ¬ (0x20 ≤ 0xE000 &&& 0xFF ∧ 0xE000 &&& 0xFF ≤ 0x25)) ∧
    ∃ m', (Machine.default fun _ => 0).decode_and_execute 0xE000 = some m' ∧
      m'.reg = (Machine.default fun _ => 0).reg ∧
      m'.mem = (Machine.default fun _ => 0).mem ∧
      m'.is_running = (Machine.default fun _ => 0).is_running ∧
      m'.pos = (Machine.default fun _ => 0).pos ∧
      m'.out = (Machine.default fun _ => 0).out ++ [OutEvent.unknownTrap 0xE000] :=
  ⟨⟨by decide, by decide⟩,
    unknown_trap_diag (Machine.default fun _ => 0) 0xE000 (by decide) (by decide)⟩

/-- C8: dispatching the HALT trap (vector 0x25) turns the running flag
off, and from that state the run loop returns immediately for every
fuel, performing no further fetch. -/
theorem halt_stops_loop (m : Machine) (i : Nat)
    (hop : RawOpCode.from_u16 (i >>> 12) = some RawOpCode.Trap)
    (hvec : i &&& 0xFF = 0x25) :
    ∃ m', m.decode_and_execute i = some m' ∧
      m'.is_running = false ∧
      ∀ fuel, Machine.runLoop fuel m' = some m' := by
  have hi0 : i ≠ 0 := by
    intro h
    rw [h] at hop
    simp [RawOpCode.from_u16] at hop
  have hstep : m.decode_and_execute i =
      some { m with out := m.out ++ [OutEvent.haltNotice], is_running := false } := by
    simp [Machine.decode_and_execute, hi0, hop, Machine.execTrap, hvec, TrapCode.from_u16]
  refine ⟨_, hstep, rfl, ?_⟩
  intro fuel
  cases fuel with
  | zero => rfl
  | succ n => simp [Machine.runLoop, Machine.loopGuard]

/-- C8, witness: the theorem applied to instruction 0xE025 (TRAP with
vector 0x25) on the default machine. -/
theorem halt_stops_loop_witness :
    (RawOpCode.from_u16 (0xE025 >>> 12) = some RawOpCode.Trap ∧
      0xE025 &&& 0xFF = 0x25) ∧
    ∃ m', (Machine.default fun _ => 0).decode_and_execute 0xE025 = some m' ∧
      m'.is_running = false ∧
      ∀ fuel, Machine.runLoop fuel m' = some m' :=
  ⟨⟨by decide, by decide⟩,
    halt_stops_loop (Machine.default fun _ => 0) 0xE025 (by decide) (by decide)⟩

/-! ### Claim C6: condition-flag update after register writes -/

/-- `update_flags` stores the classification of the register's current
value into COND and leaves the register itself alone (for a register
other than COND). -/
lemma update_flags_spec (m : Machine) (d : Register) (hd : d.toIdx ≠ 9) :
    (m.update_flags d).reg.get .COND
        = (CondFlag.from_reg_value (m.reg.get d)).toU16 ∧
      (m.update_flags d).reg.get d = m.reg.get d := by
  have hne : d.toIdx ≠ Register.COND.toIdx := hd
  constructor
  · show (m.reg.set Register.COND
        ((CondFlag.from_reg_value (m.reg.get d)).toU16)).get Register.COND = _
    rw [RegisterManager.get_set, if_pos rfl]
  · show (m.reg.set Register.COND
        ((CondFlag.from_reg_value (m.reg.get d)).toU16)).get d = _
    rw [RegisterManager.get_set, if_neg hne]

/-- The flag value of a 16-bit quantity is 2 exactly on zero, 4 exactly
on values with the high bit set (at least 0x8000), and 1 otherwise. -/
lemma cond_classify (v : Nat) (hv : v < 65536) :
    ((CondFlag.from_reg_value v).toU16 = 2 ∧ v = 0) ∨
    ((CondFlag.from_reg_value v).toU16 = 4 ∧ 0x8000 ≤ v) ∨
    ((CondFlag.from_reg_value v).toU16 = 1 ∧ 0 < v ∧ v < 0x8000) := by
  have hsh : v >>> 15 = v / 32768 := by
    rw [Nat.shiftRight_eq_div_pow]
  unfold CondFlag.from_reg_value
  by_cases h0 : v = 0
  · left
    simp [h0, CondFlag.toU16]
  · by_cases hneg : v >>> 15 ≠ 0
    · right
      left
      refine ⟨by simp [h0, hneg, CondFlag.toU16], by omega⟩
    · right
      right
      refine ⟨by simp [h0, hneg, CondFlag.toU16], by omega, by omega⟩

/-- A `MemoryManager::read` of a well-formed memory returns a 16-bit
value and keeps every cell 16-bit. -/
lemma MemoryManager.read_lt (mem : MemoryManager) (stdin : Nat → Nat)
    (pos addr : Nat) (h : ∀ a, mem.memory a < 65536) :
    (mem.read stdin pos addr).1 < 65536 ∧
      ∀ a, ((mem.read stdin pos addr).2.1).memory a < 65536 := by
  have hb : stdin pos % 256 < 256 := Nat.mod_lt _ (by norm_num)
  have h15 : (1 : Nat) <<< 15 = 32768 := by decide
  by_cases hk : addr = Kbsr
  · by_cases hz : stdin pos % 256 = 0
    · have e : mem.read stdin pos addr =
          ((mem.write Kbsr 0).memory addr, mem.write Kbsr 0, pos + 1) := by
        simp [MemoryManager.read, hk, hz]
      rw [e]
      constructor
      · simp only [MemoryManager.write, hk]
        split_ifs <;> omega
      · intro a
        simp only [MemoryManager.write]
        split_ifs <;> first | omega | exact h a
    · have e : mem.read stdin pos addr =
          (((mem.write Kbsr (1 <<< 15)).write Kbdr (stdin pos % 256)).memory addr,
            (mem.write Kbsr (1 <<< 15)).write Kbdr (stdin pos % 256), pos + 1) := by
        simp [MemoryManager.read, hk, hz]
      rw [e]
      constructor
      · simp only [MemoryManager.write, hk, h15]
        split_ifs <;> omega
      · intro a
        simp only [MemoryManager.write, h15]
        split_ifs <;> first | omega | exact h a
  · have e : mem.read stdin pos addr = (mem.memory addr, mem, pos) := by
      simp [MemoryManager.read, hk]
    rw [e]
    exact ⟨h addr, h⟩

/-- Classification of COND after `update_flags` on a register holding a
16-bit value. -/
lemma flags_after_write (m : Machine) (d : Register) (hd9 : d.toIdx ≠ 9)
    (hv : m.reg.get d < 65536) :
    (m.update_flags d).reg.get .COND = 2 ∧ (m.update_flags d).reg.get d = 0 ∨
    (m.update_flags d).reg.get .COND = 4 ∧ 0x8000 ≤ (m.update_flags d).reg.get d ∨
    (m.update_flags d).reg.get .COND = 1 ∧ 0 < (m.update_flags d).reg.get d ∧
      (m.update_flags d).reg.get d < 0x8000 := by
  obtain ⟨hc, hval⟩ := update_flags_spec m d hd9
  rw [hc, hval]
  exact cond_classify _ hv

/-- C6: after executing any register-writing instruction (ADD, AND,
NOT, LD, LDI, LDR, LEA), COND holds exactly one of the three flag
values, classified from the value just written to the destination
register: 2 (Zero) when it is 0, 4 (Negative) when it is at least
0x8000, and 1 (Positive) otherwise. -/
theorem writeback_updates_cond (m : Machine) (i : Nat) (op : RawOpCode)
    (hop : RawOpCode.from_u16 (i >>> 12) = some op)
    (hwrites : op = .Add ∨ op = .And ∨ op = .Not ∨ op = .Ld ∨
      op = .Ldi ∨ op = .Ldr ∨ op = .Lea)
    (hreg : ∀ j, m.reg.registers j < 65536)
    (hmem : ∀ a, m.mem.memory a < 65536) :
    ∃ m' d, m.decode_and_execute i = some m' ∧
      Register.from_u16 ((i >>> 9) &&& 0x7) = some d ∧
      (m'.reg.get .COND = 2 ∧ m'.reg.get d = 0 ∨
       m'.reg.get .COND = 4 ∧ 0x8000 ≤ m'.reg.get d ∨
       m'.reg.get .COND = 1 ∧ 0 < m'.reg.get d ∧ m'.reg.get d < 0x8000) := by
  obtain ⟨d, hd, hdidx⟩ := Register.from_u16_and7 (i >>> 9)
  have hd9 : d.toIdx ≠ 9 := by
    have := Register.and7_le (i >>> 9)
    omega
  have hi0 : i ≠ 0 := by
    intro h
    rw [h] at hop
    rw [show RawOpCode.from_u16 (0 >>> 12) = some RawOpCode.Br from rfl] at hop
    injection hop with hbr
    rcases hwrites with h'|h'|h'|h'|h'|h'|h' <;> rw [← hbr] at h' <;>
      exact absurd h' (by decide)
  rcases hwrites with h|h|h|h|h|h|h <;> subst h
  · -- ADD
    obtain ⟨s1, hs1, hs1i⟩ := Register.from_u16_and7 (i >>> 6)
    by_cases himm : (i >>> 5) % 2 = 1
    · obtain ⟨imm5, h5⟩ := sign_extend_total (i &&& 0x1F) 5 (by omega)
      have hstep : m.decode_and_execute i =
          some ({ m with
            reg := m.reg.set d ((m.reg.get s1 + imm5) % 65536) }.update_flags d) := by
        simp [Machine.decode_and_execute, hi0, hop, Machine.execAdd, hd, hs1, himm, h5]
      refine ⟨_, d, hstep, hd, ?_⟩
      apply flags_after_write _ d hd9
      show (m.reg.set d _).get d < 65536
      rw [RegisterManager.get_set, if_pos rfl]
      exact Nat.mod_lt _ (by norm_num)
    · obtain ⟨s2, hs2, hs2i⟩ := Register.from_u16_and7 i
      have hstep : m.decode_and_execute i =
          some ({ m with
            reg := m.reg.set d ((m.reg.get s1 + m.reg.get s2) % 65536) }.update_flags d) := by
        simp [Machine.decode_and_execute, hi0, hop, Machine.execAdd, hd, hs1, himm, hs2]
      refine ⟨_, d, hstep, hd, ?_⟩
      apply flags_after_write _ d hd9
      show (m.reg.set d _).get d < 65536
      rw [RegisterManager.get_set, if_pos rfl]
      exact Nat.mod_lt _ (by norm_num)
  · -- AND
    obtain ⟨s1, hs1, hs1i⟩ := Register.from_u16_and7 (i >>> 6)
    by_cases himm : (i >>> 5) % 2 = 1
    · obtain ⟨imm5, h5⟩ := sign_extend_total (i &&& 0x1F) 5 (by omega)
      have hstep : m.decode_and_execute i =
          some ({ m with
            reg := m.reg.set d (m.reg.get s1 &&& imm5) }.update_flags d) := by
        simp [Machine.decode_and_execute, hi0, hop, Machine.execAnd, hd, hs1, himm, h5]
      refine ⟨_, d, hstep, hd, ?_⟩
      apply flags_after_write _ d hd9
      show (m.reg.set d _).get d < 65536
      rw [RegisterManager.get_set, if_pos rfl]
      exact lt_of_le_of_lt Nat.and_le_left (hreg s1.toIdx)
    · obtain ⟨s2, hs2, hs2i⟩ := Register.from_u16_and7 i
      have hstep : m.decode_and_execute i =
          some ({ m with
            reg := m.reg.set d (m.reg.get s1 &&& m.reg.get s2) }.update_flags d) := by
        simp [Machine.decode_and_execute, hi0, hop, Machine.execAnd, hd, hs1, himm, hs2]
      refine ⟨_, d, hstep, hd, ?_⟩
      apply flags_after_write _ d hd9
      show (m.reg.set d _).get d < 65536
      rw [RegisterManager.get_set, if_pos rfl]
      exact lt_of_le_of_lt Nat.and_le_left (hreg s1.toIdx)
  · -- NOT
    obtain ⟨s, hs, hsi⟩ := Register.from_u16_and7 (i >>> 6)
    have hstep : m.decode_and_execute i =
        some ({ m with
          reg := m.reg.set d (m.reg.get s ^^^ 0xFFFF) }.update_flags d) := by
      simp [Machine.decode_and_execute, hi0, hop, Machine.execNot, hd, hs]
    refine ⟨_, d, hstep, hd, ?_⟩
    apply flags_after_write _ d hd9
    show (m.reg.set d _).get d < 65536
    rw [RegisterManager.get_set, if_pos rfl]
    exact Nat.xor_lt_two_pow (n := 16) (hreg s.toIdx) (by norm_num)
  · -- LD
    obtain ⟨off9, h9⟩ := sign_extend_total (i &&& 0x1FF) 9 (by omega)
    have hr := MemoryManager.read_lt m.mem m.stdin m.pos
      ((m.reg.get .PC + off9) % 65536) hmem
    have hstep : m.decode_and_execute i =
        some ({ m with
          mem := (m.mem.read m.stdin m.pos ((m.reg.get .PC + off9) % 65536)).2.1,
          pos := (m.mem.read m.stdin m.pos ((m.reg.get .PC + off9) % 65536)).2.2,
          reg := m.reg.set d
            (m.mem.read m.stdin m.pos ((m.reg.get .PC + off9) % 65536)).1 }.update_flags d) := by
      simp [Machine.decode_and_execute, hi0, hop, Machine.execLd, hd, h9]
    refine ⟨_, d, hstep, hd, ?_⟩
    apply flags_after_write _ d hd9
    show (m.reg.set d _).get d < 65536
    rw [RegisterManager.get_set, if_pos rfl]
    exact hr.1
  · -- LDI
    obtain ⟨off9, h9⟩ := sign_extend_total (i &&& 0x1FF) 9 (by omega)
    have hr1 := MemoryManager.read_lt m.mem m.stdin m.pos
      ((m.reg.get .PC + off9) % 65536) hmem
    have hr2 := MemoryManager.read_lt
      (m.mem.read m.stdin m.pos ((m.reg.get .PC + off9) % 65536)).2.1 m.stdin
      (m.mem.read m.stdin m.pos ((m.reg.get .PC + off9) % 65536)).2.2
      (m.mem.read m.stdin m.pos ((m.reg.get .PC + off9) % 65536)).1 hr1.2
    have hstep : m.decode_and_execute i =
        some ({ m with
          mem := ((m.mem.read m.stdin m.pos ((m.reg.get .PC + off9) % 65536)).2.1.read
            m.stdin (m.mem.read m.stdin m.pos ((m.reg.get .PC + off9) % 65536)).2.2
            (m.mem.read m.stdin m.pos ((m.reg.get .PC + off9) % 65536)).1).2.1,
          pos := ((m.mem.read m.stdin m.pos ((m.reg.get .PC + off9) % 65536)).2.1.read
            m.stdin (m.mem.read m.stdin m.pos ((m.reg.get .PC + off9) % 65536)).2.2
            (m.mem.read m.stdin m.pos ((m.reg.get .PC + off9) % 65536)).1).2.2,
          reg := m.reg.set d
            ((m.mem.read m.stdin m.pos ((m.reg.get .PC + off9) % 65536)).2.1.read
            m.stdin (m.mem.read m.stdin m.pos ((m.reg.get .PC + off9) % 65536)).2.2
            (m.mem.read m.stdin m.pos ((m.reg.get .PC + off9) % 65536)).1).1 }.update_flags d) := by
      simp [Machine.decode_and_execute, hi0, hop, Machine.execLdi, hd, h9]
    refine ⟨_, d, hstep, hd, ?_⟩
    apply flags_after_write _ d hd9
    show (m.reg.set d _).get d < 65536
    rw [RegisterManager.get_set, if_pos rfl]
    exact hr2.1
  · -- LDR
    obtain ⟨b, hb, hbi⟩ := Register.from_u16_and7 (i >>> 6)
    obtain ⟨off6, h6⟩ := sign_extend_total (i &&& 0x3F) 6 (by omega)
    have hr := MemoryManager.read_lt m.mem m.stdin m.pos
      ((m.reg.get b + off6) % 65536) hmem
    have hstep : m.decode_and_execute i =
        some ({ m with
          mem := (m.mem.read m.stdin m.pos ((m.reg.get b + off6) % 65536)).2.1,
          pos := (m.mem.read m.stdin m.pos ((m.reg.get b + off6) % 65536)).2.2,
          reg := m.reg.set d
            (m.mem.read m.stdin m.pos ((m.reg.get b + off6) % 65536)).1 }.update_flags d) := by
      simp [Machine.decode_and_execute, hi0, hop, Machine.execLdr, hd, hb, h6]
    refine ⟨_, d, hstep, hd, ?_⟩
    apply flags_after_write _ d hd9
    show (m.reg.set d _).get d < 65536
    rw [RegisterManager.get_set, if_pos rfl]
    exact hr.1
  · -- LEA
    obtain ⟨off9, h9⟩ := sign_extend_total (i &&& 0x1FF) 9 (by omega)
    have hstep : m.decode_and_execute i =
        some ({ m with
          reg := m.reg.set d ((m.reg.get .PC + off9) % 65536) }.update_flags d) := by
      simp [Machine.decode_and_execute, hi0, hop, Machine.execLea, hd, h9]
    refine ⟨_, d, hstep, hd, ?_⟩
    apply flags_after_write _ d hd9
    show (m.reg.set d _).get d < 65536
    rw [RegisterManager.get_set, if_pos rfl]
    exact Nat.mod_lt _ (by norm_num)

/-- C6, witness: the theorem applied to the repository's ADD test
instruction 0x1601 (`ADD R3, R0, R1`) on the default machine; the
written value is 0, so COND ends up 2 (Zero). -/
theorem writeback_updates_cond_witness :
    ∃ m' d, (Machine.default fun _ => 0).decode_and_execute 0x1601 = some m' ∧
      Register.from_u16 ((0x1601 >>> 9) &&& 0x7) = some d ∧
      (m'.reg.get .COND = 2 ∧ m'.reg.get d = 0 ∨
       m'.reg.get .COND = 4 ∧ 0x8000 ≤ m'.reg.get d ∨
       m'.reg.get .COND = 1 ∧ 0 < m'.reg.get d ∧ m'.reg.get d < 0x8000) :=
  writeback_updates_cond (Machine.default fun _ => 0) 0x1601 RawOpCode.Add
    (by decide) (Or.inl rfl)
    (fun j => by
      show (if j = 8 then PC_START else 0) < 65536
      split <;> norm_num [PC_START])
    (fun a => by
      show (0 : Nat) < 65536
      norm_num)

/-! ### Per-arm progress lemmas: every handler returns a state, and only
the HALT trap can change the running flag. -/

/-- The ADD handler always returns a state with the same running flag. -/
lemma execAdd_ok (m : Machine) (i : Nat) :
    (m.execAdd i).isSome = true ∧
      ∀ m', m.execAdd i = some m' → m'.is_running = m.is_running := by
  obtain ⟨d, hd, _⟩ := Register.from_u16_and7 (i >>> 9)
  obtain ⟨s1, hs1, _⟩ := Register.from_u16_and7 (i >>> 6)
  by_cases himm : (i >>> 5) % 2 = 1
  · obtain ⟨v, hv⟩ := sign_extend_total (i &&& 0x1F) 5 (by omega)
    constructor
    · simp [Machine.execAdd, hd, hs1, himm, hv]
    · intro m' h
      simp [Machine.execAdd, hd, hs1, himm, hv] at h
      subst h
      rfl
  · obtain ⟨s2, hs2, _⟩ := Register.from_u16_and7 i
    constructor
    · simp [Machine.execAdd, hd, hs1, himm, hs2]
    · intro m' h
      simp [Machine.execAdd, hd, hs1, himm, hs2] at h
      subst h
      rfl

/-- The AND handler always returns a state with the same running flag. -/
lemma execAnd_ok (m : Machine) (i : Nat) :
    (m.execAnd i).isSome = true ∧
      ∀ m', m.execAnd i = some m' → m'.is_running = m.is_running := by
  obtain ⟨d, hd, _⟩ := Register.from_u16_and7 (i >>> 9)
  obtain ⟨s1, hs1, _⟩ := Register.from_u16_and7 (i >>> 6)
  by_cases himm : (i >>> 5) % 2 = 1
  · obtain ⟨v, hv⟩ := sign_extend_total (i &&& 0x1F) 5 (by omega)
    constructor
    · simp [Machine.execAnd, hd, hs1, himm, hv]
    · intro m' h
      simp [Machine.execAnd, hd, hs1, himm, hv] at h
      subst h
      rfl
  · obtain ⟨s2, hs2, _⟩ := Register.from_u16_and7 i
    constructor
    · simp [Machine.execAnd, hd, hs1, himm, hs2]
    · intro m' h
      simp [Machine.execAnd, hd, hs1, himm, hs2] at h
      subst h
      rfl

/-- The NOT handler always returns a state with the same running flag. -/
lemma execNot_ok (m : Machine) (i : Nat) :
    (m.execNot i).isSome = true ∧
      ∀ m', m.execNot i = some m' → m'.is_running = m.is_running := by
  obtain ⟨d, hd, _⟩ := Register.from_u16_and7 (i >>> 9)
  obtain ⟨s, hs, _⟩ := Register.from_u16_and7 (i >>> 6)
  constructor
  · simp [Machine.execNot, hd, hs]
  · intro m' h
    simp [Machine.execNot, hd, hs] at h
    subst h
    rfl

/-- The BR handler always returns a state with the same running flag. -/
lemma execBr_ok (m : Machine) (i : Nat) :
    (m.execBr i).isSome = true ∧
      ∀ m', m.execBr i = some m' → m'.is_running = m.is_running := by
  obtain ⟨v, hv⟩ := sign_extend_total (i &&& 0x1FF) 9 (by omega)
  by_cases hc : ((i >>> 9) &&& 0x7) &&& m.reg.get .COND ≠ 0
  · constructor
    · simp [Machine.execBr, hv, hc]
    · intro m' h
      simp [Machine.execBr, hv, hc] at h
      subst h
      rfl
  · constructor
    · simp [Machine.execBr, hv, hc]
    · intro m' h
      simp [Machine.execBr, hv, hc] at h
      subst h
      rfl

/-- The JMP handler always returns a state with the same running flag. -/
lemma execJmp_ok (m : Machine) (i : Nat) :
    (m.execJmp i).isSome = true ∧
      ∀ m', m.execJmp i = some m' → m'.is_running = m.is_running := by
  obtain ⟨b, hb, _⟩ := Register.from_u16_and7 (i >>> 6)
  constructor
  · simp [Machine.execJmp, hb]
  · intro m' h
    simp [Machine.execJmp, hb] at h
    subst h
    rfl

/-- The JSR handler always returns a state with the same running flag. -/
lemma execJsr_ok (m : Machine) (i : Nat) :
    (m.execJsr i).isSome = true ∧
      ∀ m', m.execJsr i = some m' → m'.is_running = m.is_running := by
  by_cases hbit : (i >>> 11) % 2 = 1
  · obtain ⟨v, hv⟩ := sign_extend_total (i &&& 0x7FF) 11 (by omega)
    constructor
    · simp [Machine.execJsr, hbit, hv]
    · intro m' h
      simp [Machine.execJsr, hbit, hv] at h
      subst h
      rfl
  · obtain ⟨b, hb, _⟩ := Register.from_u16_and7 (i >>> 6)
    constructor
    · simp [Machine.execJsr, hbit, hb]
    · intro m' h
      simp [Machine.execJsr, hbit, hb] at h
      subst h
      rfl

/-- The LD handler always returns a state with the same running flag. -/
lemma execLd_ok (m : Machine) (i : Nat) :
    (m.execLd i).isSome = true ∧
      ∀ m', m.execLd i = some m' → m'.is_running = m.is_running := by
  obtain ⟨d, hd, _⟩ := Register.from_u16_and7 (i >>> 9)
  obtain ⟨v, hv⟩ := sign_extend_total (i &&& 0x1FF) 9 (by omega)
  constructor
  · simp [Machine.execLd, hd, hv]
  · intro m' h
    simp [Machine.execLd, hd, hv] at h
    subst h
    rfl

/-- The LDR handler always returns a state with the same running flag. -/
lemma execLdr_ok (m : Machine) (i : Nat) :
    (m.execLdr i).isSome = true ∧
      ∀ m', m.execLdr i = some m' → m'.is_running = m.is_running := by
  obtain ⟨d, hd, _⟩ := Register.from_u16_and7 (i >>> 9)
  obtain ⟨b, hb, _⟩ := Register.from_u16_and7 (i >>> 6)
  obtain ⟨v, hv⟩ := sign_extend_total (i &&& 0x3F) 6 (by omega)
  constructor
  · simp [Machine.execLdr, hd, hb, hv]
  · intro m' h
    simp [Machine.execLdr, hd, hb, hv] at h
    subst h
    rfl

/-- The LDI handler always returns a state with the same running flag. -/
lemma execLdi_ok (m : Machine) (i : Nat) :
    (m.execLdi i).isSome = true ∧
      ∀ m', m.execLdi i = some m' → m'.is_running = m.is_running := by
  obtain ⟨d, hd, _⟩ := Register.from_u16_and7 (i >>> 9)
  obtain ⟨v, hv⟩ := sign_extend_total (i &&& 0x1FF) 9 (by omega)
  constructor
  · simp [Machine.execLdi, hd, hv]
  · intro m' h
    simp [Machine.execLdi, hd, hv] at h
    subst h
    rfl

/-- The LEA handler always returns a state with the same running flag. -/
lemma execLea_ok (m : Machine) (i : Nat) :
    (m.execLea i).isSome = true ∧
      ∀ m', m.execLea i = some m' → m'.is_running = m.is_running := by
  obtain ⟨d, hd, _⟩ := Register.from_u16_and7 (i >>> 9)
  obtain ⟨v, hv⟩ := sign_extend_total (i &&& 0x1FF) 9 (by omega)
  constructor
  · simp [Machine.execLea, hd, hv]
  · intro m' h
    simp [Machine.execLea, hd, hv] at h
    subst h
    rfl

/-- The ST handler always returns a state with the same running flag. -/
lemma execSt_ok (m : Machine) (i : Nat) :
    (m.execSt i).isSome = true ∧
      ∀ m', m.execSt i = some m' → m'.is_running = m.is_running := by
  obtain ⟨s, hs, _⟩ := Register.from_u16_and7 (i >>> 9)
  obtain ⟨v, hv⟩ := sign_extend_total (i &&& 0x1FF) 9 (by omega)
  constructor
  · simp [Machine.execSt, hs, hv]
  · intro m' h
    simp [Machine.execSt, hs, hv] at h
    subst h
    rfl

/-- The STI handler always returns a state with the same running flag. -/
lemma execSti_ok (m : Machine) (i : Nat) :
    (m.execSti i).isSome = true ∧
      ∀ m', m.execSti i = some m' → m'.is_running = m.is_running := by
  obtain ⟨s, hs, _⟩ := Register.from_u16_and7 (i >>> 9)
  obtain ⟨v, hv⟩ := sign_extend_total (i &&& 0x1FF) 9 (by omega)
  constructor
  · simp [Machine.execSti, hs, hv]
  · intro m' h
    simp [Machine.execSti, hs, hv] at h
    subst h
    rfl

/-- The STR handler always returns a state with the same running flag. -/
lemma execStr_ok (m : Machine) (i : Nat) :
    (m.execStr i).isSome = true ∧
      ∀ m', m.execStr i = some m' → m'.is_running = m.is_running := by
  obtain ⟨s, hs, _⟩ := Register.from_u16_and7 (i >>> 9)
  obtain ⟨b, hb, _⟩ := Register.from_u16_and7 (i >>> 6)
  obtain ⟨v, hv⟩ := sign_extend_total (i &&& 0x3F) 6 (by omega)
  constructor
  · simp [Machine.execStr, hs, hb, hv]
  · intro m' h
    simp [Machine.execStr, hs, hb, hv] at h
    subst h
    rfl

/-- Only the HALT vector can decode to `TrapCode.Halt`. -/
lemma TrapCode.from_u16_halt_inv (v : Nat)
    (h : TrapCode.from_u16 v = some TrapCode.Halt) : v = 0x25 := by
  unfold TrapCode.from_u16 at h
  split at h <;> simp_all

/-- The TRAP handler always returns a state, and it clears the running
flag only for the HALT vector 0x25. -/
lemma execTrap_ok (m : Machine) (i : Nat) :
    (m.execTrap i).isSome = true ∧
      ∀ m', m.execTrap i = some m' →
        (m'.is_running = m.is_running ∨
          (i &&& 0xFF = 0x25 ∧ m'.is_running = false)) := by
  cases h : TrapCode.from_u16 (i &&& 0xFF) with
  | none =>
    constructor
    · simp [Machine.execTrap, h]
    · intro m' hm
      simp [Machine.execTrap, h] at hm
      left
      subst hm
      rfl
  | some t =>
    cases t with
    | GetC =>
      refine ⟨by simp [Machine.execTrap, h], fun m' hm => Or.inl ?_⟩
      simp [Machine.execTrap, h] at hm
      subst hm
      rfl
    | Out =>
      refine ⟨by simp [Machine.execTrap, h], fun m' hm => Or.inl ?_⟩
      simp [Machine.execTrap, h] at hm
      subst hm
      rfl
    | Puts =>
      refine ⟨by simp [Machine.execTrap, h], fun m' hm => Or.inl ?_⟩
      simp [Machine.execTrap, h] at hm
      subst hm
      rfl
    | In =>
      refine ⟨by simp [Machine.execTrap, h], fun m' hm => Or.inl ?_⟩
      simp [Machine.execTrap, h] at hm
      subst hm
      rfl
    | PutsP =>
      refine ⟨by simp [Machine.execTrap, h], fun m' hm => Or.inl ?_⟩
      simp [Machine.execTrap, h] at hm
      subst hm
      rfl
    | Halt =>
      refine ⟨by simp [Machine.execTrap, h],
        fun m' hm => Or.inr ⟨TrapCode.from_u16_halt_inv _ h, ?_⟩⟩
      simp [Machine.execTrap, h] at hm
      subst hm
      rfl

/-! ### Claim C1: decoding never panics -/

/-- Every 4-bit opcode value decodes. -/
lemma RawOpCode.from_u16_total (n : Nat) (h : n < 16) :
    ∃ op, RawOpCode.from_u16 n = some op := by
  interval_cases n <;> exact ⟨_, rfl⟩

/-- C1: for every 16-bit instruction word — including every word whose
bits 15-12 equal 15, the reserved region — `decode_and_execute` returns
a state (`isSome`): no decode of an opcode value, register field or trap
vector aborts. -/
theorem decode_never_panics (m : Machine) (i : Nat) (hi : i < 65536) :
    (m.decode_and_execute i).isSome = true := by
  by_cases h0 : i = 0
  · simp [Machine.decode_and_execute, h0]
  · have h12 : i >>> 12 < 16 := by
      rw [Nat.shiftRight_eq_div_pow]
      omega
    obtain ⟨op, hop⟩ := RawOpCode.from_u16_total (i >>> 12) h12
    cases op
    · rw [show m.decode_and_execute i = m.execBr i by
        simp [Machine.decode_and_execute, h0, hop]]
      exact (execBr_ok m i).1
    · rw [show m.decode_and_execute i = m.execAdd i by
        simp [Machine.decode_and_execute, h0, hop]]
      exact (execAdd_ok m i).1
    · rw [show m.decode_and_execute i = m.execLd i by
        simp [Machine.decode_and_execute, h0, hop]]
      exact (execLd_ok m i).1
    · rw [show m.decode_and_execute i = m.execSt i by
        simp [Machine.decode_and_execute, h0, hop]]
      exact (execSt_ok m i).1
    · rw [show m.decode_and_execute i = m.execJsr i by
        simp [Machine.decode_and_execute, h0, hop]]
      exact (execJsr_ok m i).1
    · rw [show m.decode_and_execute i = m.execAnd i by
        simp [Machine.decode_and_execute, h0, hop]]
      exact (execAnd_ok m i).1
    · rw [show m.decode_and_execute i = m.execLdr i by
        simp [Machine.decode_and_execute, h0, hop]]
      exact (execLdr_ok m i).1
    · rw [show m.decode_and_execute i = m.execStr i by
        simp [Machine.decode_and_execute, h0, hop]]
      exact (execStr_ok m i).1
    · rw [show m.decode_and_execute i = m.execNot i by
        simp [Machine.decode_and_execute, h0, hop]]
      exact (execNot_ok m i).1
    · rw [show m.decode_and_execute i = m.execLdi i by
        simp [Machine.decode_and_execute, h0, hop]]
      exact (execLdi_ok m i).1
    · rw [show m.decode_and_execute i = m.execSti i by
        simp [Machine.decode_and_execute, h0, hop]]
      exact (execSti_ok m i).1
    · rw [show m.decode_and_execute i = m.execJmp i by
        simp [Machine.decode_and_execute, h0, hop]]
      exact (execJmp_ok m i).1
    · simp [Machine.decode_and_execute, h0, hop]
    · rw [show m.decode_and_execute i = m.execLea i by
        simp [Machine.decode_and_execute, h0, hop]]
      exact (execLea_ok m i).1
    · rw [show m.decode_and_execute i = m.execTrap i by
        simp [Machine.decode_and_execute, h0, hop]]
      exact (execTrap_ok m i).1
    · simp [Machine.decode_and_execute, h0, hop]

/-- C1, witness: the theorem applied to the word 0xF000, whose bits
15-12 equal 15 (the reserved opcode region), on the default machine. -/
theorem decode_never_panics_witness :
    (0xF000 : Nat) < 65536 ∧
      ((Machine.default fun _ => 0).decode_and_execute 0xF000).isSome = true :=
  ⟨by decide, decode_never_panics (Machine.default fun _ => 0) 0xF000 (by decide)⟩

/-! ### Claim C9: the loop guard and the sole loop exit -/

/-- C9: for a machine whose registers hold 16-bit values, the second
conjunct of the run-loop guard `(PC as usize) < MAX_MEMORY` is always
true, so the guard equals the running flag; and a decode-and-execute
step changes the running flag only by dispatching the HALT trap
(vector 0x25 of the TRAP opcode), which sets it to false — PC leaving
the addressable range is unreachable and HALT is the sole way the loop
stops. -/
theorem run_guard_and_halt_only :
    (∀ m : Machine, (∀ j, m.reg.registers j < 65536) →
      m.loopGuard = m.is_running) ∧
    (∀ (m : Machine) (i : Nat) (m' : Machine),
      m.decode_and_execute i = some m' →
      m'.is_running = m.is_running ∨
        (RawOpCode.from_u16 (i >>> 12) = some RawOpCode.Trap ∧
          i &&& 0xFF = 0x25 ∧ m'.is_running = false)) := by
  constructor
  · intro m h
    unfold Machine.loopGuard
    have hpc : m.reg.get .PC < MAX_MEMORY := h 8
    simp [hpc]
  · intro m i m' h
    by_cases h0 : i = 0
    · left
      rw [h0] at h
      simp [Machine.decode_and_execute] at h
      rw [← h]
    · cases hop : RawOpCode.from_u16 (i >>> 12) with
      | none =>
        rw [Machine.decode_and_execute] at h
        simp [h0, hop] at h
      | some op =>
        cases op
        · rw [show m.decode_and_execute i = m.execBr i by
            simp [Machine.decode_and_execute, h0, hop]] at h
          exact Or.inl ((execBr_ok m i).2 m' h)
        · rw [show m.decode_and_execute i = m.execAdd i by
            simp [Machine.decode_and_execute, h0, hop]] at h
          exact Or.inl ((execAdd_ok m i).2 m' h)
        · rw [show m.decode_and_execute i = m.execLd i by
            simp [Machine.decode_and_execute, h0, hop]] at h
          exact Or.inl ((execLd_ok m i).2 m' h)
        · rw [show m.decode_and_execute i = m.execSt i by
            simp [Machine.decode_and_execute, h0, hop]] at h
          exact Or.inl ((execSt_ok m i).2 m' h)
        · rw [show m.decode_and_execute i = m.execJsr i by
            simp [Machine.decode_and_execute, h0, hop]] at h
          exact Or.inl ((execJsr_ok m i).2 m' h)
        · rw [show m.decode_and_execute i = m.execAnd i by
            simp [Machine.decode_and_execute, h0, hop]] at h
          exact Or.inl ((execAnd_ok m i).2 m' h)
        · rw [show m.decode_and_execute i = m.execLdr i by
            simp [Machine.decode_and_execute, h0, hop]] at h
          exact Or.inl ((execLdr_ok m i).2 m' h)
        · rw [show m.decode_and_execute i = m.execStr i by
            simp [Machine.decode_and_execute, h0, hop]] at h
          exact Or.inl ((execStr_ok m i).2 m' h)
        · rw [show m.decode_and_execute i = m.execNot i by
            simp [Machine.decode_and_execute, h0, hop]] at h
          exact Or.inl ((execNot_ok m i).2 m' h)
        · rw [show m.decode_and_execute i = m.execLdi i by
            simp [Machine.decode_and_execute, h0, hop]] at h
          exact Or.inl ((execLdi_ok m i).2 m' h)
        · rw [show m.decode_and_execute i = m.execSti i by
            simp [Machine.decode_and_execute, h0, hop]] at h
          exact Or.inl ((execSti_ok m i).2 m' h)
        · rw [show m.decode_and_execute i = m.execJmp i by
            simp [Machine.decode_and_execute, h0, hop]] at h
          exact Or.inl ((execJmp_ok m i).2 m' h)
        · left
          rw [show m.decode_and_execute i = some m by
            simp [Machine.decode_and_execute, h0, hop]] at h
          injection h with h
          rw [← h]
        · rw [show m.decode_and_execute i = m.execLea i by
            simp [Machine.decode_and_execute, h0, hop]] at h
          exact Or.inl ((execLea_ok m i).2 m' h)
        · rw [show m.decode_and_execute i = m.execTrap i by
            simp [Machine.decode_and_execute, h0, hop]] at h
          rcases (execTrap_ok m i).2 m' h with hr | ⟨hv, hr⟩
          · exact Or.inl hr
          · exact Or.inr ⟨rfl, hv, hr⟩
        · left
          rw [show m.decode_and_execute i = some m by
            simp [Machine.decode_and_execute, h0, hop]] at h
          injection h with h
          rw [← h]

/-- C9, witness: the guard of the default machine equals its running
flag, and the HALT step from the default machine is reported as the
trap that clears the flag. -/
theorem run_guard_and_halt_only_witness :
    (Machine.default fun _ => 0).loopGuard = (Machine.default fun _ => 0).is_running ∧
    ({ Machine.default (fun _ => 0) with
        out := [OutEvent.haltNotice], is_running := false }.is_running
          = (Machine.default fun _ => 0).is_running ∨
      (RawOpCode.from_u16 (0xE025 >>> 12) = some RawOpCode.Trap ∧
        0xE025 &&& 0xFF = 0x25 ∧
        ({ Machine.default (fun _ => 0) with
            out := [OutEvent.haltNotice], is_running := false }).is_running = false)) :=
  ⟨run_guard_and_halt_only.1 (Machine.default fun _ => 0)
      (fun j => by
        show (if j = 8 then PC_START else 0) < 65536
        split <;> norm_num [PC_START]),
    run_guard_and_halt_only.2 (Machine.default fun _ => 0) 0xE025
      { Machine.default (fun _ => 0) with
          out := [OutEvent.haltNotice], is_running := false } rfl⟩

/-! ### Claim C7: image-loader round trip -/

/-- The big-endian byte stream of a list of 16-bit words, used to build
the synthetic images the loader consumes. -/
def wordsToBytes : List Nat → List Nat
  | [] => []
  | w :: ws => toBE w ++ wordsToBytes ws

/-- Cells outside the written range are untouched by the loader's
write loop. -/
lemma loadLoop_untouched (ws : List Nat) :
    ∀ (mem : MemoryManager) (addr x : Nat), addr < 65536 →
      (∀ j, j < ws.length → x ≠ (addr + j) % 65536) →
      (loadLoop mem addr (wordsToBytes ws)).memory x = mem.memory x := by
  induction ws with
  | nil =>
    intro mem addr x _ _
    rfl
  | cons w ws ih =>
    intro mem addr x haddr h
    have hx : x ≠ addr := by
      have := h 0 (by simp)
      omega
    show (loadLoop
        (mem.write addr ((w / 256 % 256 % 256) * 256 + w % 256 % 256))
        ((addr + 1) % 65536) (wordsToBytes ws)).memory x = mem.memory x
    rw [ih _ _ _ (by omega) ?_]
    · simp [MemoryManager.write, hx]
    · intro j hj
      have := h (j + 1) (by simpa using Nat.succ_lt_succ hj)
      omega

/-- The loader's write loop puts word `i` at cell `(addr + i) % 65536`
when at most 65536 words are written. -/
lemma loadLoop_get (ws : List Nat) :
    ∀ (mem : MemoryManager) (addr : Nat), addr < 65536 → ws.length ≤ 65536 →
      (∀ w ∈ ws, w < 65536) →
      ∀ i (h : i < ws.length),
        (loadLoop mem addr (wordsToBytes ws)).memory ((addr + i) % 65536)
          = ws.get ⟨i, h⟩ := by
  induction ws with
  | nil =>
    intro _ _ _ _ _ i h
    exact absurd h (by simp)
  | cons w ws ih =>
    intro mem addr haddr hlen hws i h
    have hlen' : ws.length ≤ 65535 := by
      simpa using hlen
    cases i with
    | zero =>
      have e0 : (addr + 0) % 65536 = addr := by omega
      rw [e0]
      show (loadLoop
          (mem.write addr ((w / 256 % 256 % 256) * 256 + w % 256 % 256))
          ((addr + 1) % 65536) (wordsToBytes ws)).memory addr = w
      rw [loadLoop_untouched ws _ _ _ (by omega) ?_]
      · have hw : w < 65536 := hws w (by simp)
        simp [MemoryManager.write]
        omega
      · intro j hj
        omega
    | succ n =>
      have e : (addr + (n + 1)) % 65536 = ((addr + 1) % 65536 + n) % 65536 := by
        omega
      rw [e]
      show (loadLoop
          (mem.write addr ((w / 256 % 256 % 256) * 256 + w % 256 % 256))
          ((addr + 1) % 65536) (wordsToBytes ws)).memory
            (((addr + 1) % 65536 + n) % 65536) = (w :: ws).get ⟨n + 1, h⟩
      rw [ih _ ((addr + 1) % 65536) (by omega) (by omega)
        (fun w' hw' => hws w' (by simp [hw'])) n (by simpa using h)]
      rfl

/-- C7, counterexample: the round-trip claim, quantified over every
origin, fails when the written range covers the keyboard-status
address: loading origin 0xFE00 with the single word 5 and then reading
memory at 0xFE00 returns the freshly polled status (0x8000 with a
pending nonzero byte), not the loaded word 5. -/
theorem load_image_roundtrip_claim_false :
    ¬ (∀ (m : Machine) (origin : Nat) (ws : List Nat),
        origin < 65536 → ws.length ≤ 65536 → (∀ w ∈ ws, w < 65536) →
        ∀ m', m.load_image (toBE origin ++ wordsToBytes ws) = some m' →
          ∀ i (h : i < ws.length),
            (m'.mem.read m'.stdin m'.pos ((origin + i) % 65536)).1
              = ws.get ⟨i, h⟩) := by
  intro hcl
  have h1 := hcl (Machine.default fun _ => 1) 0xFE00 [5]
    (by decide) (by decide) (by decide) _ rfl 0 (by decide)
  exact absurd h1 (by decide)

/-- C7 (amended): loading an image whose bytes are big-endian `origin`
followed by at most 65536 words in big-endian order writes word `i` to
memory address `(origin + i) % 65536` — including when the addresses
wrap past 0xFFFF — so that, provided the written range avoids the
intercepted keyboard-status address, reading memory back at those
addresses reproduces the words exactly. -/
theorem load_image_roundtrip (m : Machine) (origin : Nat) (ws : List Nat)
    (horig : origin < 65536) (hn : ws.length ≤ 65536)
    (hws : ∀ w ∈ ws, w < 65536)
    (hkb : ∀ i, i < ws.length → (origin + i) % 65536 ≠ Kbsr) :
    ∃ m', m.load_image (toBE origin ++ wordsToBytes ws) = some m' ∧
      ∀ i (h : i < ws.length),
        (m'.mem.read m'.stdin m'.pos ((origin + i) % 65536)).1
          = ws.get ⟨i, h⟩ := by
  have harg : origin / 256 % 256 * 256 + origin % 256 = origin := by
    omega
  have e : m.load_image (toBE origin ++ wordsToBytes ws) =
      some { m with mem := loadLoop m.mem origin (wordsToBytes ws) } := by
    simp [Machine.load_image, toBE]
    rw [harg]
  refine ⟨_, e, ?_⟩
  intro i h
  have hread : ∀ (mm : MemoryManager) (st : Nat → Nat) (p : Nat),
      (mm.read st p ((origin + i) % 65536)).1 = mm.memory ((origin + i) % 65536) := by
    intro mm st p
    simp [MemoryManager.read, hkb i h]
  rw [hread]
  exact loadLoop_get ws m.mem origin horig hn hws i h

/-- C7, witness: the amended theorem applied to origin 0xFFFF with the
two words 7 and 9, whose write addresses wrap past 0xFFFF to cell 0. -/
theorem load_image_roundtrip_witness :
    ∃ m', (Machine.default fun _ => 0).load_image
        (toBE 0xFFFF ++ wordsToBytes [7, 9]) = some m' ∧
      ∀ i (h : i < [7, 9].length),
        (m'.mem.read m'.stdin m'.pos ((0xFFFF + i) % 65536)).1
          = [7, 9].get ⟨i, h⟩ :=
  load_image_roundtrip (Machine.default fun _ => 0) 0xFFFF [7, 9]
    (by decide) (by decide) (by decide)
    (fun i hi => by
      have hi2 : i < 2 := by simpa using hi
      interval_cases i <;> decide)

end LC3
